import Mathlib

/-!
Verification of the serum multisig CLI (src/src/main.rs and
src/solana-signer/src/main.rs) against its natural-language specification.

The development shallowly embeds the data model and the per-command
instruction-building logic of the CLI.  External reads (RPC fetches of token
accounts, proposal records, rent) are passed in as explicit arguments, so every
command handler becomes a pure function from its inputs and the fetched values
to either an error or the instructions it builds.
-/

namespace Serum

/-- A Solana public key, modelled by its 32-byte representation
(a list of naturals, each below 256 for well-formed keys). -/
abbrev Pubkey := List Nat

/-- The system program id (the all-zero key). -/
def systemProgramId : Pubkey := List.replicate 32 0

/-- Bytes of the recent-blockhashes sysvar id
(base58 SysvarRecentB1ockHashes11111111111111111111). -/
def sysvarRecentBlockhashesId : Pubkey :=
  [6, 167, 213, 23, 25, 44, 86, 142, 224, 138, 132, 95, 115, 210, 151, 136,
   207, 3, 92, 49, 69, 178, 26, 179, 68, 216, 6, 46, 169, 64, 0, 0]

/-- Bytes of the rent sysvar id
(base58 SysvarRent111111111111111111111111111111111). -/
def sysvarRentId : Pubkey :=
  [6, 167, 213, 23, 25, 44, 92, 81, 33, 140, 201, 76, 61, 74, 241, 127,
   88, 218, 238, 8, 155, 161, 253, 68, 227, 219, 217, 138, 0, 0, 0, 0]

/-- Bytes of the SPL token program id
(base58 TokenkegQfeZyiNwAJbNbGKPFXCWuBvf9Ss623VQ5DA). -/
def splTokenId : Pubkey :=
  [6, 221, 246, 225, 215, 101, 161, 147, 217, 203, 225, 70, 206, 235, 121, 172,
   28, 180, 133, 237, 95, 91, 55, 145, 58, 140, 245, 133, 126, 255, 0, 169]

/-- solana_sdk::instruction::AccountMeta. -/
structure AccountMeta where
  pubkey : Pubkey
  isSigner : Bool
  isWritable : Bool
deriving DecidableEq, Repr

/-- solana_sdk::instruction::Instruction; data is the raw byte payload. -/
structure Instruction where
  programId : Pubkey
  accounts : List AccountMeta
  data : List Nat
deriving DecidableEq, Repr

/-- Little-endian byte expansion of a natural number into k bytes. -/
def leBytes : Nat → Nat → List Nat
  | 0, _ => []
  | k + 1, n => n % 256 :: leBytes k (n / 256)

/-- Little-endian u32 encoding. -/
def le32 (n : Nat) : List Nat := leBytes 4 n

/-- Little-endian u64 encoding. -/
def le64 (n : Nat) : List Nat := leBytes 8 n

/-!
A model of IEEE 754 binary64 (the Rust f64 type) over the rationals.  A finite
double is identified with the rational number it denotes; rounding a real
(rational) result to the nearest double is performed explicitly by roundF64.
The exponent range is not bounded (overflow to infinity and subnormal loss of
precision are outside the magnitudes any token amount reaches), and NaN and the
infinities are not modelled.
-/

/-- Floor of the base-2 logarithm of a natural number, with explicit fuel so
that it reduces in the kernel; log2fuel f n is correct whenever n < 2 ^ f. -/
def log2fuel : Nat → Nat → Nat
  | 0, _ => 0
  | f + 1, n => if n < 2 then 0 else log2fuel f (n / 2) + 1

/-- Floor of the base-2 logarithm of a positive rational. -/
def qlog2 (q : ℚ) : Int :=
  let ln : Int := log2fuel 1100 q.num.natAbs
  let ld : Int := log2fuel 1100 q.den
  let g := ln - ld
  if (2 : ℚ) ^ g ≤ q then g else g - 1

/-- Round a rational to the nearest integer, ties to even
(the IEEE 754 default rounding direction). -/
def roundHalfEven (q : ℚ) : Int :=
  let f := ⌊q⌋
  let r := q - f
  if r < 1 / 2 then f
  else if 1 / 2 < r then f + 1
  else if f % 2 = 0 then f else f + 1

/-- The binary64 value nearest to the rational q (ties to even): the rational
denoted by the double that q converts or rounds to. -/
def roundF64 (q : ℚ) : ℚ :=
  if q = 0 then 0
  else
    let s : ℚ := if q < 0 then -1 else 1
    let a := |q|
    let e : Int := qlog2 a - 52
    let m := roundHalfEven (a / (2 : ℚ) ^ e)
    s * (m : ℚ) * (2 : ℚ) ^ e

/-- The Rust saturating cast of a finite f64 value to u64: truncation toward
zero, clamped to the u64 range. -/
def f64ToU64 (q : ℚ) : Nat :=
  if q < 0 then 0
  else if (2 : ℚ) ^ 64 ≤ q then 2 ^ 64 - 1
  else (⌊q⌋).toNat

/-- The f64 value of the Rust expression 10_usize.pow(decimals) as f64 inside
spl_token::ui_amount_to_amount (usize arithmetic is modulo 2 ^ 64; the cast to
f64 rounds). -/
def powTenF64 (decimals : Nat) : ℚ :=
  roundF64 (((10 : Nat) ^ decimals % 2 ^ 64 : Nat) : ℚ)

/-- spl_token::ui_amount_to_amount(ui_amount, decimals):
(ui_amount * 10_usize.pow(decimals as u32) as f64) as u64. -/
def uiAmountToAmount (uiAmount : ℚ) (decimals : Nat) : Nat :=
  f64ToU64 (roundF64 (uiAmount * powTenF64 decimals))

/-!
The wire format of a signable message: solana_sdk::message::Message is
serialized by bincode with the solana short-vec (compact-u16) encoding on its
vector fields, and the Submit command deserializes the same format.  Bytes are
naturals (below 256 for well-formed data); parsers return the parsed value and
the remaining input.
-/

/-- Compact-u16 (solana short-vec length) encoding of a value below 65536. -/
def encodeCompactU16 (n : Nat) : List Nat :=
  if n < 128 then [n]
  else if n < 16384 then [n % 128 + 128, n / 128]
  else [n % 128 + 128, n / 128 % 128 + 128, n / 16384]

/-- Compact-u16 decoding, with the canonicality checks of the solana
short-vec deserializer: a continuation byte of zero is rejected (non-minimal
encoding) and a third byte above 3 is rejected (u16 overflow). -/
def readCompactU16 (l : List Nat) : Option (Nat × List Nat) :=
  match l with
  | [] => none
  | b0 :: r0 =>
    if b0 < 128 then some (b0, r0)
    else
      match r0 with
      | [] => none
      | b1 :: r1 =>
        if b1 = 0 then none
        else if b1 < 128 then some (b0 % 128 + 128 * b1, r1)
        else
          match r1 with
          | [] => none
          | b2 :: r2 =>
            if b2 = 0 then none
            else if b2 < 4 then some (b0 % 128 + 128 * (b1 % 128) + 16384 * b2, r2)
            else none

/-- Read one byte. -/
def readByte : List Nat → Option (Nat × List Nat)
  | [] => none
  | b :: r => some (b, r)

/-- Read exactly n bytes. -/
def readN (n : Nat) (l : List Nat) : Option (List Nat × List Nat) :=
  if n ≤ l.length then some (l.take n, l.drop n) else none

/-- Read n consecutive items with the item parser p. -/
def readList {α : Type} (p : List Nat → Option (α × List Nat)) :
    Nat → List Nat → Option (List α × List Nat)
  | 0, l => some ([], l)
  | n + 1, l =>
    (p l).bind fun xr =>
      (readList p n xr.2).map fun ysr => (xr.1 :: ysr.1, ysr.2)

/-- solana_sdk::instruction::CompiledInstruction: account indices into the
message account-key list. -/
structure CompiledInstruction where
  programIdIndex : Nat
  accounts : List Nat
  data : List Nat
deriving DecidableEq, Repr

/-- solana_sdk::message::Message. -/
structure Message where
  numRequiredSignatures : Nat
  numReadonlySignedAccounts : Nat
  numReadonlyUnsignedAccounts : Nat
  accountKeys : List Pubkey
  recentBlockhash : List Nat
  instructions : List CompiledInstruction
deriving DecidableEq, Repr

/-- Wire form of a compiled instruction: index byte, short-vec of account
indices, short-vec of data bytes. -/
def serCompiledInstruction (ci : CompiledInstruction) : List Nat :=
  ci.programIdIndex :: (encodeCompactU16 ci.accounts.length ++ ci.accounts
    ++ encodeCompactU16 ci.data.length ++ ci.data)

/-- Message::serialize (bincode with short-vec vectors): three header bytes,
short-vec of 32-byte account keys, 32-byte blockhash, short-vec of compiled
instructions. -/
def serializeMessage (m : Message) : List Nat :=
  m.numRequiredSignatures :: m.numReadonlySignedAccounts ::
    m.numReadonlyUnsignedAccounts ::
    (encodeCompactU16 m.accountKeys.length ++ m.accountKeys.flatten
     ++ m.recentBlockhash
     ++ encodeCompactU16 m.instructions.length
     ++ (m.instructions.map serCompiledInstruction).flatten)

/-- Parse one 32-byte public key. -/
def readPubkey (l : List Nat) : Option (Pubkey × List Nat) := readN 32 l

/-- Parse a compiled instruction from its wire form. -/
def readCompiledInstruction (l : List Nat) : Option (CompiledInstruction × List Nat) :=
  (readByte l).bind fun pir =>
  (readCompactU16 pir.2).bind fun nar =>
  (readList readByte nar.1 nar.2).bind fun accsr =>
  (readCompactU16 accsr.2).bind fun ndr =>
  (readList readByte ndr.1 ndr.2).map fun datar =>
  ({ programIdIndex := pir.1, accounts := accsr.1, data := datar.1 }, datar.2)

/-- Parse a message from its wire form, returning the remaining bytes. -/
def parseMessage (l : List Nat) : Option (Message × List Nat) :=
  (readByte l).bind fun h1 =>
  (readByte h1.2).bind fun h2 =>
  (readByte h2.2).bind fun h3 =>
  (readCompactU16 h3.2).bind fun nk =>
  (readList readPubkey nk.1 nk.2).bind fun keys =>
  (readN 32 keys.2).bind fun bh =>
  (readCompactU16 bh.2).bind fun ni =>
  (readList readCompiledInstruction ni.1 ni.2).map fun ixs =>
  ({ numRequiredSignatures := h1.1, numReadonlySignedAccounts := h2.1,
     numReadonlyUnsignedAccounts := h3.1, accountKeys := keys.1,
     recentBlockhash := bh.1, instructions := ixs.1 }, ixs.2)

/-- bincode::deserialize of a Message: parse the fields and ignore trailing
bytes (bincode does not require full consumption of the slice). -/
def deserializeMessage (l : List Nat) : Option Message :=
  (parseMessage l).map (fun r => r.1)

/-!
Base64 (the base64 crate, BASE64_STANDARD engine): standard alphabet, padded
encoding, strict decoding (canonical padding required, non-zero trailing bits
rejected, invalid characters and lengths rejected).  Strings are modelled by
the lists of their ascii codes; the pad character = is code 61.
-/

/-- Ascii code of the standard-alphabet digit of a sextet. -/
def b64Char (v : Nat) : Nat :=
  if v < 26 then 65 + v
  else if v < 52 then 97 + (v - 26)
  else if v < 62 then 48 + (v - 52)
  else if v = 62 then 43
  else 47

/-- Sextet value of an ascii code; none outside the alphabet. -/
def b64Val (c : Nat) : Option Nat :=
  if 65 ≤ c ∧ c ≤ 90 then some (c - 65)
  else if 97 ≤ c ∧ c ≤ 122 then some (c - 97 + 26)
  else if 48 ≤ c ∧ c ≤ 57 then some (c - 48 + 52)
  else if c = 43 then some 62
  else if c = 47 then some 63
  else none

/-- Base64-encode a byte list (ascii codes of the padded encoding). -/
def b64Encode : List Nat → List Nat
  | [] => []
  | [a] => [b64Char (a / 4), b64Char (a % 4 * 16), 61, 61]
  | [a, b] => [b64Char (a / 4), b64Char (a % 4 * 16 + b / 16), b64Char (b % 16 * 4), 61]
  | a :: b :: c :: rest =>
    b64Char (a / 4) :: b64Char (a % 4 * 16 + b / 16) :: b64Char (b % 16 * 4 + c / 64)
      :: b64Char (c % 64) :: b64Encode rest

/-- Base64-decode (strict): none on any character outside the alphabet, a
length that is not a multiple of four, non-canonical padding, or non-zero
trailing bits. -/
def b64Decode : List Nat → Option (List Nat)
  | [] => some []
  | c1 :: c2 :: c3 :: c4 :: rest =>
    (b64Val c1).bind fun v1 =>
    (b64Val c2).bind fun v2 =>
    if c3 = 61 then
      if c4 = 61 ∧ rest = [] ∧ v2 % 16 = 0 then some [v1 * 4 + v2 / 16] else none
    else
      (b64Val c3).bind fun v3 =>
      if c4 = 61 then
        if rest = [] ∧ v3 % 4 = 0 then some [v1 * 4 + v2 / 16, v2 % 16 * 16 + v3 / 4]
        else none
      else
        (b64Val c4).bind fun v4 =>
        (b64Decode rest).map fun bs =>
          (v1 * 4 + v2 / 16) :: (v2 % 16 * 16 + v3 / 4) :: (v3 % 4 * 64 + v4) :: bs
  | _ => none

/-- Transport encoding printed by build_tx: base64 of the serialized message. -/
def encodeTransport (m : Message) : List Nat := b64Encode (serializeMessage m)

/-- Transport decoding performed by the Submit command: base64-decode, then
bincode-deserialize. -/
def decodeTransport (s : List Nat) : Option Message :=
  (b64Decode s).bind deserializeMessage

/-!
Message compilation (Message::new): solana CompiledKeys collects the metadata
of every referenced key in a BTreeMap (ordered by the byte representation of
the key), merges flags, then lays the keys out as payer, writable signers,
readonly signers, writable non-signers, readonly non-signers, and compiles
every instruction into indices into that list.
-/

/-- The per-key metadata of solana CompiledKeys. -/
structure KeyMeta where
  isSigner : Bool
  isWritable : Bool
  isInvoked : Bool
deriving DecidableEq, Repr

/-- The or_default entry metadata. -/
def KeyMeta.empty : KeyMeta := ⟨false, false, false⟩

/-- Byte-lexicographic strict order on key representations, the Ord instance
a BTreeMap over 32-byte arrays sorts by. -/
def pkLt : List Nat → List Nat → Bool
  | [], [] => false
  | [], _ :: _ => true
  | _ :: _, [] => false
  | a :: as, b :: bs => if a < b then true else if b < a then false else pkLt as bs

/-- BTreeMap entry(k).or_default() followed by the mutation f, on an
association list sorted by pkLt. -/
def upsert (k : Pubkey) (f : KeyMeta → KeyMeta) :
    List (Pubkey × KeyMeta) → List (Pubkey × KeyMeta)
  | [] => [(k, f KeyMeta.empty)]
  | (k1, m1) :: rest =>
    if k = k1 then (k1, f m1) :: rest
    else if pkLt k k1 then (k, f KeyMeta.empty) :: (k1, m1) :: rest
    else (k1, m1) :: upsert k f rest

/-- One account meta of an instruction merged into the key map
(entry().or_default() then or-merging the signer and writable flags). -/
def accMergeStep (acc : List (Pubkey × KeyMeta)) (am : AccountMeta) :
    List (Pubkey × KeyMeta) :=
  upsert am.pubkey
    (fun m => { m with isSigner := m.isSigner || am.isSigner,
                       isWritable := m.isWritable || am.isWritable }) acc

/-- One instruction merged into the key map: its program id marked invoked,
then each account meta merged in order. -/
def ixStep (acc : List (Pubkey × KeyMeta)) (ix : Instruction) :
    List (Pubkey × KeyMeta) :=
  ix.accounts.foldl accMergeStep
    (upsert ix.programId (fun m => { m with isInvoked := true }) acc)

/-- CompiledKeys::compile: every instruction merged in order, then the payer
forced signer and writable. -/
def compileKeyMetaMap (instructions : List Instruction) (payer : Pubkey) :
    List (Pubkey × KeyMeta) :=
  upsert payer (fun m => { m with isSigner := true, isWritable := true })
    (instructions.foldl ixStep [])

/-- CompiledKeys::try_into_message_components: payer first, then writable
signers, readonly signers, writable non-signers, readonly non-signers (each
group in map order, the payer entry removed); returns the header triple and
the key list. -/
def messageComponents (instructions : List Instruction) (payer : Pubkey) :
    (Nat × Nat × Nat) × List Pubkey :=
  let map := (compileKeyMetaMap instructions payer).filter (fun e => !(e.1 == payer))
  let ws := payer :: (map.filter (fun e => e.2.isSigner && e.2.isWritable)).map (fun e => e.1)
  let rs := (map.filter (fun e => e.2.isSigner && !e.2.isWritable)).map (fun e => e.1)
  let wn := (map.filter (fun e => !e.2.isSigner && e.2.isWritable)).map (fun e => e.1)
  let rn := (map.filter (fun e => !e.2.isSigner && !e.2.isWritable)).map (fun e => e.1)
  ((ws.length + rs.length, rs.length, rn.length), ws ++ rs ++ wn ++ rn)

/-- Message::compile_instructions: replace keys by their position in the
account-key list; solana-sdk casts each position to u8, so every index is
truncated modulo 256. -/
def compileIx (keys : List Pubkey) (ix : Instruction) : CompiledInstruction :=
  { programIdIndex := keys.indexOf ix.programId % 256
    accounts := ix.accounts.map (fun am => keys.indexOf am.pubkey % 256)
    data := ix.data }

/-- Message::new(instructions, Some(payer)) with the default (zero)
blockhash. -/
def messageNew (instructions : List Instruction) (payer : Pubkey) : Message :=
  let c := messageComponents instructions payer
  { numRequiredSignatures := c.1.1
    numReadonlySignedAccounts := c.1.2.1
    numReadonlyUnsignedAccounts := c.1.2.2
    accountKeys := c.2
    recentBlockhash := List.replicate 32 0
    instructions := instructions.map (compileIx c.2) }

/-- system_instruction::advance_nonce_account(nonce_account, authority):
system program call, data is the bincode of the variant AdvanceNonceAccount
(index 4 as little-endian u32). -/
def advanceNonceAccount (nonceAccount authority : Pubkey) : Instruction :=
  { programId := systemProgramId
    accounts := [⟨nonceAccount, false, true⟩, ⟨sysvarRecentBlockhashesId, false, false⟩,
                 ⟨authority, true, false⟩]
    data := le32 4 }

/-- Message::new_with_nonce: prepend the advance-nonce instruction, then
compile as usual. -/
def messageNewWithNonce (instructions : List Instruction)
    (payer nonceAccount nonceAuthority : Pubkey) : Message :=
  messageNew (advanceNonceAccount nonceAccount nonceAuthority :: instructions) payer

/-- build_tx (src/src/main.rs lines 100 to 113): Message::new_with_nonce with
the payer as nonce authority, then the blockhash field is overwritten with the
caller-supplied nonce value.  The CLI passes the nonce account for the third
argument and the payer for both the fee payer and the nonce authority. -/
def buildTx (payer : Pubkey) (nonce : List Nat) (nonceAccount : Pubkey)
    (instructions : List Instruction) : Message :=
  let m := messageNewWithNonce instructions payer nonceAccount payer
  { m with recentBlockhash := nonce }

/-!
Command flows.  Every RPC read (rent-exemption lamports, token accounts, the
proposal record) and every locally generated keypair is an explicit argument;
the result of a command is the error it aborts with or the instruction list it
hands to build_tx.  The program-derived-address computation is passed in as a
function argument where a flow calls derive_multisig_signer (its hashing
internals live outside the embedding, see deriveMultisigSigner below).
-/

/-- The failure points of the embedded commands.  In the source every abort is
an anyhow error with a message; the constructors name the individual abort
sites (indexPanic models the Rust panic on indexing remaining_accounts when
the proposal records fewer than two accounts). -/
inductive CliError where
  | sourceNotFound
  | destNotFound
  | mintMismatch
  | insufficientFunds
  | proposalNotFound
  | notTransfer
  | invalidInstructionData
  | indexPanic
  | malformedTransport
deriving DecidableEq, Repr

/-- The token-amount part of an RPC token account: ui_amount is the optional
human-readable f64 balance, decimals the asset's decimal count. -/
structure TokenAmount where
  uiAmount : Option ℚ
  decimals : Nat
deriving DecidableEq

/-- The fields of an RPC token account the CLI reads. -/
structure TokenAccount where
  mint : Pubkey
  tokenAmount : TokenAmount
deriving DecidableEq

/-- system_instruction::create_account(from, to, lamports, space, owner):
both metas signer and writable; data is variant 0, lamports, space, owner. -/
def createAccountIx (fromPk toPk : Pubkey) (lamports space : Nat)
    (owner : Pubkey) : Instruction :=
  { programId := systemProgramId
    accounts := [⟨fromPk, true, true⟩, ⟨toPk, true, true⟩]
    data := le32 0 ++ le64 lamports ++ le64 space ++ owner }

/-- Borsh encoding of a vector of public keys: u32 length then the raw keys. -/
def borshPubkeyVec (ks : List Pubkey) : List Nat := le32 ks.length ++ ks.flatten

/-- Anchor instruction data of coral_multisig create_multisig(owners,
threshold, nonce): the 8-byte discriminator (first bytes of the sha256 of
global:create_multisig) then the borsh-encoded arguments. -/
def createMultisigData (owners : List Pubkey) (threshold : Nat) (nonce : Nat) :
    List Nat :=
  [148, 146, 240, 10, 226, 215, 167, 174] ++ borshPubkeyVec owners
    ++ le64 threshold ++ [nonce % 256]

/-- The CreateMultisig command (src/src/main.rs lines 126 to 165): derives the
program-derived signer of the freshly generated multisig key, then builds the
account-creation instruction followed by the create_multisig program call.
Owners and threshold are passed through without any local validation.  Account
metas of the program call follow the coral_multisig Accounts derive (multisig
writable signer) plus the rent sysvar meta the source appends. -/
def createMultisig (derive : Pubkey → Pubkey → Pubkey × Nat)
    (pid payer msigKey : Pubkey) (owners : List Pubkey) (threshold : Nat)
    (rentLamports : Nat) : Except CliError (List Instruction) :=
  let nonce := (derive msigKey pid).2
  let anchorIx : Instruction :=
    { programId := pid
      accounts := [⟨msigKey, true, true⟩, ⟨sysvarRentId, false, false⟩]
      data := createMultisigData owners threshold nonce }
  .ok [createAccountIx payer msigKey rentLamports 500 pid, anchorIx]

/-- spl_token::instruction::transfer(spl_token::id(), source, destination,
authority, no multisig signers, amount): source and destination writable, the
authority a readonly signer; data is tag 3 then the little-endian amount. -/
def tokenTransferIx (source destination authority : Pubkey) (amount : Nat) :
    Instruction :=
  { programId := splTokenId
    accounts := [⟨source, false, true⟩, ⟨destination, false, true⟩,
                 ⟨authority, true, false⟩]
    data := 3 :: le64 amount }

/-- Borsh encoding of a coral_multisig TransactionAccount descriptor. -/
def borshTransactionAccount (am : AccountMeta) : List Nat :=
  am.pubkey ++ [if am.isSigner then 1 else 0, if am.isWritable then 1 else 0]

/-- Anchor instruction data of coral_multisig create_transaction(pid, accs,
data). -/
def createTransactionData (targetPid : Pubkey) (accs : List AccountMeta)
    (data : List Nat) : List Nat :=
  [227, 193, 53, 239, 55, 126, 112, 105] ++ targetPid ++ le32 accs.length
    ++ (accs.map borshTransactionAccount).flatten ++ le32 data.length ++ data

/-- The CreateTokenTransferTransaction command (src/src/main.rs lines 166 to
262) up to build_tx.  Checks run in source order: source account fetched,
destination account fetched, mint equality, balance sufficiency (absent
ui_amount counts as insufficient); only then is the transfer instruction built,
wrapped into the create_transaction program call preceded by the proposal
account creation.  Account metas of the program call follow the coral_multisig
Accounts derive (multisig readonly, proposal account writable signer, proposer
readonly signer) plus the rent sysvar meta the source appends. -/
def createTokenTransferTransaction (derive : Pubkey → Pubkey → Pubkey × Nat)
    (pid payer multisig fromPk toPk : Pubkey) (amount : ℚ)
    (fromAccount toAccount : Option TokenAccount)
    (txKey : Pubkey) (rentLamports : Nat) : Except CliError (List Instruction) :=
  match fromAccount with
  | none => .error .sourceNotFound
  | some fa =>
    match toAccount with
    | none => .error .destNotFound
    | some ta =>
      if fa.mint ≠ ta.mint then .error .mintMismatch
      else
        match fa.tokenAmount.uiAmount with
        | none => .error .insufficientFunds
        | some bal =>
          if bal < amount then .error .insufficientFunds
          else
            let baseAmount := uiAmountToAmount amount fa.tokenAmount.decimals
            let pda := (derive multisig pid).1
            let transfer := tokenTransferIx fromPk toPk pda baseAmount
            let anchorIx : Instruction :=
              { programId := pid
                accounts := [⟨multisig, false, false⟩, ⟨txKey, true, true⟩,
                             ⟨payer, true, false⟩, ⟨sysvarRentId, false, false⟩]
                data := createTransactionData splTokenId transfer.accounts
                          transfer.data }
            .ok [createAccountIx payer txKey rentLamports 500 pid, anchorIx]

/-- The fields of the on-chain proposal record (coral_multisig Transaction
account) the Execute command reads: the recorded account descriptors and the
opaque instruction payload. -/
structure TxProposal where
  accounts : List AccountMeta
  data : List Nat
deriving DecidableEq

/-- Little-endian byte-list decoding. -/
def leDecode (l : List Nat) : Nat := l.foldr (fun b acc => b % 256 + 256 * acc) 0

/-- spl_token TokenInstruction::unpack restricted to what the Execute command
accepts: a Transfer (tag 3) carrying at least eight further bytes yields the
little-endian amount; a too-short Transfer fails unpacking, and any other
payload aborts (the source distinguishes an unpack error from the
not-a-transfer rejection only in the message). -/
def unpackTransferAmount (data : List Nat) : Except CliError Nat :=
  match data with
  | 3 :: rest =>
    if 8 ≤ rest.length then .ok (leDecode (rest.take 8))
    else .error .invalidInstructionData
  | _ => .error .notTransfer

/-- The ExecuteTokenTransferTransaction command (src/src/main.rs lines 293 to
350) up to build_tx: returns the single execute_transaction program call.  The
proposal record and the source token account are explicit inputs; the account
metas copied from the proposal get their signer flag cleared, the fetch of the
source token account indexes the first descriptor (a Rust panic when there is
none, modelled as indexPanic), the payload must unpack as a transfer, and the
summary printout indexes the second descriptor (again a panic when absent).
Account metas of the program call follow the coral_multisig Accounts derive
(multisig and the derived signer readonly, proposal account writable), then
the copied descriptors, then the writable spl-token program meta the source
appends. -/
def executeTokenTransferTransaction (derive : Pubkey → Pubkey → Pubkey × Nat)
    (pid multisig transaction : Pubkey) (proposal : Option TxProposal)
    (fromAccount : Option TokenAccount) : Except CliError Instruction :=
  match proposal with
  | none => .error .proposalNotFound
  | some txa =>
    match txa.accounts.map (fun am => { am with isSigner := false }) with
    | [] => .error .indexPanic
    | first :: rest =>
      match fromAccount with
      | none => .error .sourceNotFound
      | some _fa =>
        match unpackTransferAmount txa.data with
        | .error e => .error e
        | .ok _amount =>
          match rest with
          | [] => .error .indexPanic
          | _ :: _ =>
            .ok { programId := pid
                  accounts := [⟨multisig, false, false⟩,
                               ⟨(derive multisig pid).1, false, false⟩,
                               ⟨transaction, false, true⟩]
                    ++ (first :: rest) ++ [⟨splTokenId, false, true⟩]
                  data := [231, 173, 49, 91, 235, 24, 68, 19] }

/-- A transaction as submitted: the signature list and the message
(solana_sdk::transaction::Transaction without the unused fields). -/
structure Transaction where
  signatures : List (List Nat)
  message : Message
deriving DecidableEq

/-- The Submit command (src/src/main.rs lines 351 to 366) up to the network
send: base64-decode the transport string (given by its ascii codes),
bincode-deserialize the message, and attach the given signatures positionally;
the result is the transaction that would be sent.  Either decoding failure
aborts before anything reaches the network. -/
def submit (transport : List Nat) (signatures : List (List Nat)) :
    Except CliError Transaction :=
  match b64Decode transport with
  | none => .error .malformedTransport
  | some data =>
    match deserializeMessage data with
    | none => .error .malformedTransport
    | some message => .ok { signatures := signatures, message := message }

/-- Pubkey::find_program_address, modelled over its candidate primitive: bump
seeds are tried from 255 downward and the first bump whose candidate address
falls off the ed25519 curve is returned with that address.  The candidate
function (sha256 of seeds, bump, program id and the domain tag, returning none
for on-curve results) is a parameter: hashing and the curve test stay outside
the embedding, and every fact proved below holds for all candidate
functions. -/
def findProgramAddressFuel (candidate : Nat → Option Pubkey) :
    Nat → Option (Pubkey × Nat)
  | 0 => none
  | b + 1 =>
    match candidate (b + 1) with
    | some pk => some (pk, b + 1)
    | none => findProgramAddressFuel candidate b

/-- derive_multisig_signer (src/src/main.rs lines 371 to 376):
find_program_address with the multisig key as the only seed. -/
def deriveMultisigSigner (candidate : Pubkey → Pubkey → Nat → Option Pubkey)
    (multisig pid : Pubkey) : Option (Pubkey × Nat) :=
  findProgramAddressFuel (candidate multisig pid) 255

/-- Constant test key (32 copies of one byte): fixture for the witnesses. -/
def pk (b : Nat) : Pubkey := List.replicate 32 b

/-- Concrete derivation function: fixture for the witnesses. -/
def deriveFix : Pubkey → Pubkey → Pubkey × Nat := fun _ _ => (pk 9, 254)

/-- Concrete candidate function for find_program_address: fixture for the
witnesses. -/
def candFix : Pubkey → Pubkey → Nat → Option Pubkey :=
  fun _ _ b => if b = 200 then some (pk 9) else none

/-- Wire-format well-formedness of a compiled instruction: every count fits
its compact-u16 size, the index fits its byte, and all payload values are
bytes. -/
def validCompiledInstruction (ci : CompiledInstruction) : Prop :=
  ci.programIdIndex < 256 ∧ ci.accounts.length < 65536
    ∧ (∀ a ∈ ci.accounts, a < 256)
    ∧ ci.data.length < 65536 ∧ (∀ b ∈ ci.data, b < 256)

/-- Wire-format well-formedness of a message: header counts fit their bytes,
the vector lengths fit compact-u16, keys are 32 bytes, the blockhash is 32
bytes, and every instruction is well formed.  These are exactly the bounds
under which the canonical serialization is lossless. -/
def validMessage (m : Message) : Prop :=
  m.numRequiredSignatures < 256 ∧ m.numReadonlySignedAccounts < 256
    ∧ m.numReadonlyUnsignedAccounts < 256
    ∧ m.accountKeys.length < 65536
    ∧ (∀ k ∈ m.accountKeys, k.length = 32 ∧ ∀ b ∈ k, b < 256)
    ∧ m.recentBlockhash.length = 32 ∧ (∀ b ∈ m.recentBlockhash, b < 256)
    ∧ m.instructions.length < 65536
    ∧ ∀ ci ∈ m.instructions, validCompiledInstruction ci

instance (ci : CompiledInstruction) : Decidable (validCompiledInstruction ci) := by
  unfold validCompiledInstruction
  infer_instance

instance (m : Message) : Decidable (validMessage m) := by
  unfold validMessage
  infer_instance

deriving instance DecidableEq for Except

/-- Proposal fixture: two recorded descriptors, the first recorded with the
signer flag set. -/
def propFix : TxProposal := ⟨[⟨pk 4, true, true⟩, ⟨pk 5, false, true⟩], 3 :: le64 5⟩

/-- Token-account fixture for the execute flow. -/
def tokFix : TokenAccount := ⟨pk 6, ⟨some 1, 0⟩⟩

/-- The instruction the execute flow emits on the fixtures. -/
def execIxFix : Instruction :=
  { programId := pk 1
    accounts := [⟨pk 2, false, false⟩, ⟨pk 9, false, false⟩, ⟨pk 3, false, true⟩,
                 ⟨pk 4, false, true⟩, ⟨pk 5, false, true⟩, ⟨splTokenId, false, true⟩]
    data := [231, 173, 49, 91, 235, 24, 68, 19] }

/-- Fixture for the index-wrap counterexample: one instruction referencing 256
distinct writable accounts whose keys sort before the nonce account, pushing
the advance-nonce keys past index 255 in the compiled layout.  The metas are
listed in descending key order (the compiled key map sorts them anyway). -/
def wideIx : Instruction :=
  { programId := systemProgramId
    accounts := (List.range 256).reverse.map
      (fun i => ⟨3 :: i :: List.replicate 30 9, false, true⟩)
    data := [] }

/-- The message built over the wide instruction (payer pk 1, zero nonce,
nonce account pk 200): 260 compiled account keys in total. -/
def wideMsg : Message := buildTx (pk 1) (List.replicate 32 0) (pk 200) [wideIx]

/-- C1, counterexample: with one owner and threshold 0 the CreateMultisig
command still succeeds, building its two instructions; threshold 0 is not
rejected with a validation error (no threshold check exists locally). -/
theorem createMultisig_threshold_zero_accepted :
    (createMultisig deriveFix (pk 1) (pk 2) (pk 3) [pk 4] 0 1000).isOk = true := rfl

/-- C1 (amended): CreateMultisig performs no local threshold validation: for
every owner list, every threshold (0 and values above the owner count
included) and every derivation function it succeeds, building exactly the
account-creation instruction followed by the create_multisig call, and it
passes owners and threshold through unchanged in that call's argument data.
Threshold bounds are enforced only by the external multisig program. -/
theorem createMultisig_no_local_validation
    (derive : Pubkey → Pubkey → Pubkey × Nat) (pid payer msigKey : Pubkey)
    (owners : List Pubkey) (threshold rentLamports : Nat) :
    ∃ ixs, createMultisig derive pid payer msigKey owners threshold rentLamports
        = Except.ok ixs ∧ ixs.length = 2 ∧
      (ixs.map Instruction.data).getLast? =
        some (createMultisigData owners threshold (derive msigKey pid).2) :=
  ⟨_, rfl, rfl, rfl⟩

/-- C2: with both token accounts fetched and equal mints, the
CreateTokenTransferTransaction command aborts with the insufficient-funds
validation error exactly when the requested amount exceeds the source balance
(whatever the decimal count of the asset); when the amount does not exceed the
balance it returns the built instruction list instead, so a failure never
builds instructions. -/
theorem createTransaction_insufficient_funds_iff
    (derive : Pubkey → Pubkey → Pubkey × Nat)
    (pid payer multisig fromPk toPk : Pubkey) (amount bal : ℚ)
    (fa ta : TokenAccount) (txKey : Pubkey) (rent : Nat)
    (hmint : fa.mint = ta.mint) (hbal : fa.tokenAmount.uiAmount = some bal) :
    (createTokenTransferTransaction derive pid payer multisig fromPk toPk amount
        (some fa) (some ta) txKey rent = Except.error CliError.insufficientFunds
      ↔ bal < amount)
    ∧ (amount ≤ bal → ∃ ixs,
        createTokenTransferTransaction derive pid payer multisig fromPk toPk amount
          (some fa) (some ta) txKey rent = Except.ok ixs) := by
  have hne : ¬ fa.mint ≠ ta.mint := by simp [hmint]
  by_cases hlt : bal < amount
  · simp only [createTokenTransferTransaction, if_neg hne, hbal, if_pos hlt]
    exact ⟨by simp [hlt], fun hle => absurd hlt (not_lt.2 hle)⟩
  · simp only [createTokenTransferTransaction, if_neg hne, hbal, if_neg hlt]
    exact ⟨by simp [hlt], fun _ => ⟨_, rfl⟩⟩

/-- C2 witness: equal mints, source balance 1, requested amount 2 and six
decimals; the failure equivalence and the success implication hold there. -/
theorem createTransaction_insufficient_funds_iff_witness :
    (createTokenTransferTransaction deriveFix (pk 1) (pk 2) (pk 3) (pk 4) (pk 5) 2
        (some ⟨pk 6, ⟨some 1, 6⟩⟩) (some ⟨pk 6, ⟨some 1, 6⟩⟩) (pk 7) 1000
        = Except.error CliError.insufficientFunds ↔ (1 : ℚ) < 2)
    ∧ ((2 : ℚ) ≤ 1 → ∃ ixs,
        createTokenTransferTransaction deriveFix (pk 1) (pk 2) (pk 3) (pk 4) (pk 5) 2
          (some ⟨pk 6, ⟨some 1, 6⟩⟩) (some ⟨pk 6, ⟨some 1, 6⟩⟩) (pk 7) 1000
          = Except.ok ixs) :=
  createTransaction_insufficient_funds_iff deriveFix (pk 1) (pk 2) (pk 3) (pk 4)
    (pk 5) 2 1 ⟨pk 6, ⟨some 1, 6⟩⟩ ⟨pk 6, ⟨some 1, 6⟩⟩ (pk 7) 1000 rfl rfl

/-- C7: when both token accounts are fetched and their mints differ, the
command aborts with the mint-mismatch validation error for every amount and
balance (sufficient balances included); the abort happens before any
instruction is built. -/
theorem createTransaction_mint_mismatch
    (derive : Pubkey → Pubkey → Pubkey × Nat)
    (pid payer multisig fromPk toPk : Pubkey) (amount : ℚ)
    (fa ta : TokenAccount) (txKey : Pubkey) (rent : Nat)
    (hne : fa.mint ≠ ta.mint) :
    createTokenTransferTransaction derive pid payer multisig fromPk toPk amount
      (some fa) (some ta) txKey rent = Except.error CliError.mintMismatch := by
  simp only [createTokenTransferTransaction, if_pos hne]

/-- C7 witness: mints pk 6 and pk 8 differ while the balance 100 amply covers
the requested amount 1; the command still fails with mintMismatch. -/
theorem createTransaction_mint_mismatch_witness :
    createTokenTransferTransaction deriveFix (pk 1) (pk 2) (pk 3) (pk 4) (pk 5) 1
      (some ⟨pk 6, ⟨some 100, 6⟩⟩) (some ⟨pk 8, ⟨some 100, 6⟩⟩) (pk 7) 1000
      = Except.error CliError.mintMismatch :=
  createTransaction_mint_mismatch deriveFix (pk 1) (pk 2) (pk 3) (pk 4) (pk 5) 1
    ⟨pk 6, ⟨some 100, 6⟩⟩ ⟨pk 8, ⟨some 100, 6⟩⟩ (pk 7) 1000 (by decide)

/-- C9: the program-derived signer computation is deterministic: two
computations at equal (multisig, program id) inputs return the identical
address and the identical bump. -/
theorem deriveMultisigSigner_deterministic
    (candidate : Pubkey → Pubkey → Nat → Option Pubkey)
    (m1 p1 m2 p2 : Pubkey) (hm : m1 = m2) (hp : p1 = p2) :
    deriveMultisigSigner candidate m1 p1 = deriveMultisigSigner candidate m2 p2 := by
  rw [hm, hp]

/-- C9 witness: recomputing the derivation twice at one concrete input yields
the same address and bump. -/
theorem deriveMultisigSigner_deterministic_witness :
    deriveMultisigSigner candFix (pk 1) (pk 2)
      = deriveMultisigSigner candFix (pk 1) (pk 2) :=
  deriveMultisigSigner_deterministic candFix (pk 1) (pk 2) (pk 1) (pk 2) rfl rfl

/-- Account-list shape of every successful ExecuteTokenTransferTransaction:
three leading fixed metas, then the proposal descriptors with cleared signer
flags, then the trailing writable token-program meta. -/
theorem execute_ok_accounts
    (derive : Pubkey → Pubkey → Pubkey × Nat) (pid multisig transaction : Pubkey)
    (txa : TxProposal) (fa : Option TokenAccount) (ix : Instruction)
    (h : executeTokenTransferTransaction derive pid multisig transaction
          (some txa) fa = Except.ok ix) :
    ix.accounts = [⟨multisig, false, false⟩,
        ⟨(derive multisig pid).1, false, false⟩, ⟨transaction, false, true⟩]
      ++ txa.accounts.map (fun am => { am with isSigner := false })
      ++ [⟨splTokenId, false, true⟩] := by
  unfold executeTokenTransferTransaction at h
  repeat' split at h
  all_goals try cases h
  simp_all

/-- C5, counterexample: on concrete fixtures the execute command succeeds, yet
its account list does not end with the proposal descriptors followed by the
derived signer authority and then the token program id: the derived signer
authority sits among the leading accounts, before the copied descriptors. -/
theorem execute_trailing_pda_counterexample :
    (executeTokenTransferTransaction deriveFix (pk 1) (pk 2) (pk 3) (some propFix)
        (some tokFix)).map
      (fun ix => List.isSuffixOf
        ((propFix.accounts.map AccountMeta.pubkey)
          ++ [(deriveFix (pk 2) (pk 1)).1, splTokenId])
        (ix.accounts.map AccountMeta.pubkey))
      = Except.ok false := by decide

/-- C5 (amended): the account list a successful execute emits preserves the
order of the proposal's recorded account descriptors exactly and contiguously;
the fixed accounts around them are the leading multisig, derived signer
authority and proposal account, and the single trailing token program id (the
derived signer authority leads rather than trails). -/
theorem execute_account_order
    (derive : Pubkey → Pubkey → Pubkey × Nat) (pid multisig transaction : Pubkey)
    (txa : TxProposal) (fa : Option TokenAccount) (ix : Instruction)
    (h : executeTokenTransferTransaction derive pid multisig transaction
          (some txa) fa = Except.ok ix) :
    ix.accounts.map AccountMeta.pubkey
      = [multisig, (derive multisig pid).1, transaction]
        ++ txa.accounts.map AccountMeta.pubkey ++ [splTokenId] := by
  rw [execute_ok_accounts derive pid multisig transaction txa fa ix h]
  simp [List.map_map, Function.comp]

/-- C5 witness: on the fixtures the execute command emits exactly the fixture
instruction, whose account list is the three leading fixed accounts, the two
descriptors in recorded order, and the trailing token program id. -/
theorem execute_account_order_witness :
    executeTokenTransferTransaction deriveFix (pk 1) (pk 2) (pk 3) (some propFix)
      (some tokFix) = Except.ok execIxFix
    ∧ execIxFix.accounts.map AccountMeta.pubkey
      = [pk 2, (deriveFix (pk 2) (pk 1)).1, pk 3]
        ++ propFix.accounts.map AccountMeta.pubkey ++ [splTokenId] :=
  ⟨by decide,
   execute_account_order deriveFix (pk 1) (pk 2) (pk 3) propFix (some tokFix)
     execIxFix (by decide)⟩

/-- C10: every account meta a successful execute copies from the proposal's
recorded descriptors carries the signer flag false, whatever flag the proposal
recorded for it. -/
theorem execute_clears_signer_flags
    (derive : Pubkey → Pubkey → Pubkey × Nat) (pid multisig transaction : Pubkey)
    (txa : TxProposal) (fa : Option TokenAccount) (ix : Instruction)
    (h : executeTokenTransferTransaction derive pid multisig transaction
          (some txa) fa = Except.ok ix) :
    ∀ meta ∈ (ix.accounts.drop 3).take txa.accounts.length,
      meta.isSigner = false := by
  have hacc := execute_ok_accounts derive pid multisig transaction txa fa ix h
  rw [hacc]
  have hlen : txa.accounts.length
      = (txa.accounts.map (fun am => { am with isSigner := false })).length :=
    (List.length_map _ _).symm
  simp only [List.cons_append, List.nil_append, List.drop_succ_cons,
    List.drop_zero, hlen]
  rw [List.take_left]
  intro meta hmeta
  rcases List.mem_map.1 hmeta with ⟨am, _, rfl⟩
  rfl

/-- C10 witness: the proposal fixture records its first descriptor with the
signer flag set, and the copied metas in the emitted account list all carry
false. -/
theorem execute_clears_signer_flags_witness :
    propFix.accounts.map AccountMeta.isSigner = [true, false]
    ∧ ∀ meta ∈ (execIxFix.accounts.drop 3).take propFix.accounts.length,
        meta.isSigner = false :=
  ⟨rfl,
   execute_clears_signer_flags deriveFix (pk 1) (pk 2) (pk 3) propFix
     (some tokFix) execIxFix (by decide)⟩

set_option maxRecDepth 40000 in
unseal Rat.add Rat.mul Rat.inv Rat.sub in
/-- C3, counterexample: the amount 0.29 is representable within 2 decimals
(0.29 = 29 / 100), yet converting the parsed f64 amount with 2 decimals yields
28 base units, not 29: the rounded f64 product lies just below 29 and the cast
truncates.  The conversion is therefore not exact for every amount
representable within the decimal count. -/
theorem uiAmountToAmount_lossy_counterexample :
    uiAmountToAmount (roundF64 (29 / 100)) 2 = 28 ∧ (28 : Nat) ≠ 29 :=
  ⟨by decide, by decide⟩

/-- C3 (amended): the conversion to base units is exact for an amount
k / 10 ^ d whenever the binary64 roundings involved are lossless there: the
parsed amount, the scale 10 ^ d and the product k are each fixed by rounding
and k fits u64.  This holds in particular for 1.5 with 6 decimals (giving
exactly 1500000, see the witness), but not for every amount representable
within d decimals (see the counterexample). -/
theorem uiAmountToAmount_exact_of_representable (k d : Nat)
    (h1 : roundF64 ((k : ℚ) / 10 ^ d) = (k : ℚ) / 10 ^ d)
    (h2 : powTenF64 d = (10 : ℚ) ^ d)
    (h3 : roundF64 ((k : ℚ)) = (k : ℚ))
    (h4 : k < 2 ^ 64) :
    uiAmountToAmount (roundF64 ((k : ℚ) / 10 ^ d)) d = k := by
  unfold uiAmountToAmount
  rw [h1, h2, div_mul_cancel₀ _ (pow_ne_zero d (by norm_num : (10 : ℚ) ≠ 0)), h3]
  unfold f64ToU64
  rw [if_neg ((Nat.cast_nonneg k).not_lt), if_neg (not_le.2 (by exact_mod_cast h4))]
  simp

set_option maxRecDepth 40000 in
unseal Rat.add Rat.mul Rat.inv Rat.sub in
/-- C3 witness: at the amount 1.5 (= 1500000 / 10 ^ 6) with 6 decimals all
four exactness hypotheses hold by computation and the conversion returns
exactly 1500000 base units. -/
theorem uiAmountToAmount_exact_witness :
    uiAmountToAmount (roundF64 ((1500000 : ℚ) / 10 ^ 6)) 6 = 1500000 :=
  uiAmountToAmount_exact_of_representable 1500000 6
    (by decide) (by decide) (by decide) (by decide)

/-- C8: Submit aborts with the malformed-transport error (and so sends
nothing) whenever the transport string is not valid base64 or its decoded
bytes do not deserialize as a message; when the transport string decodes to a
message it builds the transaction carrying the given signatures, in the given
positions, attached to that message. -/
theorem submit_decode_spec (transport : List Nat) (sigs : List (List Nat)) :
    ((b64Decode transport = none ∨
        ∃ d, b64Decode transport = some d ∧ deserializeMessage d = none) →
      submit transport sigs = Except.error CliError.malformedTransport)
    ∧ (∀ m, decodeTransport transport = some m →
        submit transport sigs = Except.ok { signatures := sigs, message := m }) := by
  constructor
  · rintro (hb | ⟨d, hd, hm⟩)
    · simp [submit, hb]
    · simp [submit, hd, hm]
  · intro m hm
    unfold decodeTransport at hm
    rcases hob : b64Decode transport with _ | d
    · rw [hob] at hm; cases hm
    · rw [hob] at hm
      rw [Option.some_bind] at hm
      simp [submit, hob, hm]

/-- C8 witness: a one-character transport string is not valid base64, and
Submit aborts with the malformed-transport error there. -/
theorem submit_decode_spec_witness :
    submit [33] [] = Except.error CliError.malformedTransport :=
  (submit_decode_spec [33] []).1 (Or.inl (by decide))

/-- Membership among the first components of an association list. -/
theorem mem_map_fst_iff (l : List (Pubkey × KeyMeta)) (k : Pubkey) :
    k ∈ l.map Prod.fst ↔ ∃ m, (k, m) ∈ l := by
  constructor
  · intro h
    rcases List.mem_map.1 h with ⟨⟨k1, m⟩, hmem, hfst⟩
    subst hfst
    exact ⟨m, hmem⟩
  · rintro ⟨m, hm⟩
    exact List.mem_map.2 ⟨(k, m), hm, rfl⟩

/-- Upserting a key puts it among the map keys. -/
theorem mem_upsert_self (k : Pubkey) (f : KeyMeta → KeyMeta)
    (l : List (Pubkey × KeyMeta)) : k ∈ (upsert k f l).map Prod.fst := by
  induction l with
  | nil => simp [upsert]
  | cons e rest ih =>
    obtain ⟨k1, m1⟩ := e
    unfold upsert
    by_cases h1 : k = k1
    · simp [h1]
    · rw [if_neg h1]
      by_cases h2 : pkLt k k1 = true
      · simp [h2]
      · simp only [h2]
        simp only [Bool.false_eq_true, if_false, List.map_cons, List.mem_cons]
        exact Or.inr ih

/-- Upserting preserves every key already in the map. -/
theorem mem_upsert_of_mem (a k : Pubkey) (f : KeyMeta → KeyMeta)
    (l : List (Pubkey × KeyMeta)) (h : a ∈ l.map Prod.fst) :
    a ∈ (upsert k f l).map Prod.fst := by
  induction l with
  | nil => cases h
  | cons e rest ih =>
    obtain ⟨k1, m1⟩ := e
    unfold upsert
    rcases List.mem_cons.1 h with ha | ha
    · by_cases h1 : k = k1
      · simp [h1, ha]
      · rw [if_neg h1]
        by_cases h2 : pkLt k k1 = true
        · simp [h2, ha]
        · simp only [h2]
          simp only [Bool.false_eq_true, if_false, List.map_cons, List.mem_cons]
          exact Or.inl ha
    · by_cases h1 : k = k1
      · simp only [if_pos h1, List.map_cons, List.mem_cons]
        exact Or.inr ha
      · rw [if_neg h1]
        by_cases h2 : pkLt k k1 = true
        · simp only [if_pos h2, List.map_cons, List.mem_cons]
          exact Or.inr (Or.inr ha)
        · simp only [h2]
          simp only [Bool.false_eq_true, if_false, List.map_cons, List.mem_cons]
          exact Or.inr (ih ha)

/-- The account-merging fold preserves map keys. -/
theorem mem_accfold_of_mem (ams : List AccountMeta)
    (acc : List (Pubkey × KeyMeta)) (a : Pubkey) (h : a ∈ acc.map Prod.fst) :
    a ∈ (ams.foldl accMergeStep acc).map Prod.fst := by
  induction ams generalizing acc with
  | nil => exact h
  | cons am rest ih => exact ih _ (mem_upsert_of_mem _ _ _ _ h)

/-- The account-merging fold adds the key of every merged meta. -/
theorem mem_accfold_of_mem_accounts (ams : List AccountMeta)
    (acc : List (Pubkey × KeyMeta)) (am : AccountMeta) (h : am ∈ ams) :
    am.pubkey ∈ (ams.foldl accMergeStep acc).map Prod.fst := by
  induction ams generalizing acc with
  | nil => cases h
  | cons a rest ih =>
    rcases List.mem_cons.1 h with rfl | hmem
    · exact mem_accfold_of_mem rest _ _ (mem_upsert_self _ _ _)
    · exact ih _ hmem

/-- The instruction fold preserves map keys. -/
theorem mem_ixfold_of_mem (ixs : List Instruction)
    (acc : List (Pubkey × KeyMeta)) (a : Pubkey) (h : a ∈ acc.map Prod.fst) :
    a ∈ (ixs.foldl ixStep acc).map Prod.fst := by
  induction ixs generalizing acc with
  | nil => exact h
  | cons ix rest ih =>
    exact ih _ (mem_accfold_of_mem _ _ _ (mem_upsert_of_mem _ _ _ _ h))

/-- Every key of the compiled key map lands in the account-key list laid out
by try_into_message_components. -/
theorem mem_accountKeys_of_mem_map (ixs : List Instruction) (payer : Pubkey)
    (k : Pubkey) (h : k ∈ (compileKeyMetaMap ixs payer).map Prod.fst) :
    k ∈ (messageComponents ixs payer).2 := by
  by_cases hkp : k = payer
  · subst hkp
    simp [messageComponents]
  · rcases (mem_map_fst_iff _ _).1 h with ⟨meta, hmem⟩
    have hf : (k, meta) ∈ (compileKeyMetaMap ixs payer).filter
        (fun e => !(e.1 == payer)) :=
      List.mem_filter.2 ⟨hmem, by simp [hkp]⟩
    obtain ⟨s, w, inv⟩ := meta
    show k ∈ _ ++ _ ++ _ ++ _
    cases s <;> cases w
    · refine List.mem_append_right _ ?_
      exact List.mem_map.2 ⟨(k, ⟨false, false, inv⟩),
        List.mem_filter.2 ⟨hf, rfl⟩, rfl⟩
    · refine List.mem_append_left _ (List.mem_append_right _ ?_)
      exact List.mem_map.2 ⟨(k, ⟨false, true, inv⟩),
        List.mem_filter.2 ⟨hf, rfl⟩, rfl⟩
    · refine List.mem_append_left _ (List.mem_append_left _
        (List.mem_append_right _ ?_))
      exact List.mem_map.2 ⟨(k, ⟨true, false, inv⟩),
        List.mem_filter.2 ⟨hf, rfl⟩, rfl⟩
    · refine List.mem_append_left _ (List.mem_append_left _
        (List.mem_append_left _ (List.mem_cons_of_mem _ ?_)))
      exact List.mem_map.2 ⟨(k, ⟨true, true, inv⟩),
        List.mem_filter.2 ⟨hf, rfl⟩, rfl⟩

/-- Looking a key up at its own index recovers the key. -/
theorem getElem?_indexOf_self (l : List Pubkey) (k : Pubkey) (h : k ∈ l) :
    l[List.indexOf k l]? = some k := by
  induction l with
  | nil => cases h
  | cons a rest ih =>
    unfold List.indexOf
    rw [List.findIdx_cons]
    by_cases hk : a = k
    · subst hk
      simp
    · have hbeq : (a == k) = false := by simp [hk]
      rcases List.mem_cons.1 h with heq | hmem
      · exact absurd heq.symm hk
      · simp only [hbeq, cond_false, List.getElem?_cons_succ]
        exact ih hmem

/-- The index of a present key is below the list length. -/
theorem indexOf_lt_length_self (l : List Pubkey) (k : Pubkey) (h : k ∈ l) :
    List.indexOf k l < l.length := by
  induction l with
  | nil => cases h
  | cons a rest ih =>
    unfold List.indexOf
    rw [List.findIdx_cons]
    by_cases hk : a = k
    · have hbeq : (a == k) = true := by simp [hk]
      simp [hbeq]
    · have hbeq : (a == k) = false := by simp [hk]
      rcases List.mem_cons.1 h with heq | hmem
      · exact absurd heq.symm hk
      · simp only [hbeq, cond_false, List.length_cons]
        exact Nat.succ_lt_succ (ih hmem)

/-- Looking a key up at its wrapped (as-u8) index still recovers the key when
the list has at most 256 entries, since no truncation occurs there. -/
theorem getElem?_indexOf_mod (l : List Pubkey) (k : Pubkey) (h : k ∈ l)
    (hlen : l.length ≤ 256) :
    l[List.indexOf k l % 256]? = some k := by
  rw [Nat.mod_eq_of_lt (lt_of_lt_of_le (indexOf_lt_length_self l k h) hlen)]
  exact getElem?_indexOf_self l k h

/-- The first instruction of a message built with the nonce pattern: projecting
the accounts of the advance-nonce instruction. -/
theorem advanceNonceAccount_accounts (n a : Pubkey) :
    (advanceNonceAccount n a).accounts
      = [⟨n, false, true⟩, ⟨sysvarRecentBlockhashesId, false, false⟩,
         ⟨a, true, false⟩] := rfl

/-- Projecting the program id of the advance-nonce instruction. -/
theorem advanceNonceAccount_programId (n a : Pubkey) :
    (advanceNonceAccount n a).programId = systemProgramId := rfl

/-- The four keys the advance-nonce instruction and the payer reference are
all among the keys compiled for a message built over it. -/
theorem advance_keys_mem (payer nonceAccount : Pubkey) (ixs : List Instruction)
    (k : Pubkey)
    (h : k = systemProgramId ∨ k = nonceAccount ∨
         k = sysvarRecentBlockhashesId ∨ k = payer) :
    k ∈ (compileKeyMetaMap (advanceNonceAccount nonceAccount payer :: ixs)
          payer).map Prod.fst := by
  unfold compileKeyMetaMap
  rw [List.foldl_cons]
  rcases h with h | h | h | h <;> rw [h]
  · refine mem_upsert_of_mem _ _ _ _ ?_
    refine mem_ixfold_of_mem ixs (ixStep [] _) _ ?_
    unfold ixStep
    exact mem_accfold_of_mem _ _ _ (mem_upsert_self _ _ _)
  · refine mem_upsert_of_mem _ _ _ _ ?_
    refine mem_ixfold_of_mem ixs (ixStep [] _) _ ?_
    unfold ixStep
    exact mem_accfold_of_mem_accounts _ _
      ⟨nonceAccount, false, true⟩ (by simp [advanceNonceAccount])
  · refine mem_upsert_of_mem _ _ _ _ ?_
    refine mem_ixfold_of_mem ixs (ixStep [] _) _ ?_
    unfold ixStep
    exact mem_accfold_of_mem_accounts _ _
      ⟨sysvarRecentBlockhashesId, false, false⟩ (by simp [advanceNonceAccount])
  · exact mem_upsert_self _ _ _

set_option maxRecDepth 100000 in
set_option maxHeartbeats 4000000 in
/-- C6, counterexample: on the wide fixture (260 compiled account keys) the
first compiled instruction is still the image of the advance-nonce instruction
(its data is the advance-nonce payload), but its as-u8 indices wrap modulo 256:
neither its program-id index nor its account indices resolve to the system
program, the nonce account, the recent-blockhashes sysvar and the payer, so
the first instruction of the built message is no longer the nonce-advance
instruction with the payer as nonce authority. -/
theorem buildTx_index_wrap_counterexample :
    (wideMsg.instructions.head?).map CompiledInstruction.data = some (le32 4)
    ∧ (wideMsg.instructions.head?).map
        (fun ci =>
          (wideMsg.accountKeys[ci.programIdIndex]? == some systemProgramId)
          || (ci.accounts.map (fun i => wideMsg.accountKeys[i]?)
              == [some (pk 200), some sysvarRecentBlockhashesId, some (pk 1)]))
      = some false := by
  constructor
  · decide
  · decide

/-- C6 (amended): for every instruction list, payer, nonce account and nonce
value, the message the build step returns carries the caller-supplied nonce
value as its blockhash field (no fetched recent blockhash); and whenever the
compiled message has at most 256 account keys (so the as-u8 index cast of the
sdk truncates nothing), its first compiled instruction is the advance-nonce
system instruction whose account indices resolve to the nonce account, the
recent-blockhashes sysvar and the payer as the nonce authority.  Beyond 256
keys the indices wrap and the resolution fails (see the counterexample). -/
theorem buildTx_nonce_and_advance_first (payer : Pubkey) (nonce : List Nat)
    (nonceAccount : Pubkey) (ixs : List Instruction)
    (hkeys : (buildTx payer nonce nonceAccount ixs).accountKeys.length ≤ 256) :
    (buildTx payer nonce nonceAccount ixs).recentBlockhash = nonce
    ∧ ∃ ci, (buildTx payer nonce nonceAccount ixs).instructions.head? = some ci
      ∧ ci.data = le32 4
      ∧ (buildTx payer nonce nonceAccount ixs).accountKeys[ci.programIdIndex]?
          = some systemProgramId
      ∧ ci.accounts.map
          (fun i => (buildTx payer nonce nonceAccount ixs).accountKeys[i]?)
        = [some nonceAccount, some sysvarRecentBlockhashesId, some payer] := by
  have hb : (messageComponents (advanceNonceAccount nonceAccount payer :: ixs)
      payer).2.length ≤ 256 := by
    simp only [buildTx, messageNewWithNonce, messageNew] at hkeys
    exact hkeys
  refine ⟨rfl, ⟨_, rfl, rfl, ?_, ?_⟩⟩ <;>
    simp only [buildTx, messageNewWithNonce, messageNew, compileIx,
      advanceNonceAccount_accounts, advanceNonceAccount_programId,
      List.map_cons, List.map_nil]
  · exact getElem?_indexOf_mod _ _
      (mem_accountKeys_of_mem_map _ _ _
        (advance_keys_mem payer nonceAccount ixs _ (Or.inl rfl))) hb
  · rw [getElem?_indexOf_mod _ _ (mem_accountKeys_of_mem_map _ _ _
          (advance_keys_mem payer nonceAccount ixs _ (Or.inr (Or.inl rfl)))) hb,
        getElem?_indexOf_mod _ _ (mem_accountKeys_of_mem_map _ _ _
          (advance_keys_mem payer nonceAccount ixs _
            (Or.inr (Or.inr (Or.inl rfl))))) hb,
        getElem?_indexOf_mod _ _ (mem_accountKeys_of_mem_map _ _ _
          (advance_keys_mem payer nonceAccount ixs _
            (Or.inr (Or.inr (Or.inr rfl))))) hb]

/-- C6 witness: at a concrete build (payer pk 1, zero nonce, nonce account
pk 2, no further instructions) the compiled message has four account keys, and
the amended conclusion holds there. -/
theorem buildTx_nonce_and_advance_first_witness :
    (buildTx (pk 1) (List.replicate 32 0) (pk 2) []).accountKeys.length ≤ 256
    ∧ ((buildTx (pk 1) (List.replicate 32 0) (pk 2) []).recentBlockhash
        = List.replicate 32 0
      ∧ ∃ ci, (buildTx (pk 1) (List.replicate 32 0) (pk 2) []).instructions.head?
          = some ci
        ∧ ci.data = le32 4
        ∧ (buildTx (pk 1) (List.replicate 32 0) (pk 2)
            []).accountKeys[ci.programIdIndex]? = some systemProgramId
        ∧ ci.accounts.map (fun i =>
            (buildTx (pk 1) (List.replicate 32 0) (pk 2) []).accountKeys[i]?)
          = [some (pk 2), some sysvarRecentBlockhashesId, some (pk 1)]) :=
  ⟨by decide,
   buildTx_nonce_and_advance_first (pk 1) (List.replicate 32 0) (pk 2) []
     (by decide)⟩

/-- Decoding a compact-u16 encoding recovers the value and the rest. -/
theorem readCompactU16_encode (n : Nat) (h : n < 65536) (r : List Nat) :
    readCompactU16 (encodeCompactU16 n ++ r) = some (n, r) := by
  unfold encodeCompactU16
  by_cases h1 : n < 128
  · simp [if_pos h1, readCompactU16, h1]
  · by_cases h2 : n < 16384
    · have e1 : ¬ (n % 128 + 128 < 128) := by omega
      have e2 : ¬ (n / 128 = 0) := by omega
      have e3 : n / 128 < 128 := by omega
      simp only [if_neg h1, if_pos h2, List.cons_append, List.nil_append]
      simp only [readCompactU16, e1, e2, e3, if_false, if_true]
      simp only [ite_false, ite_true, Option.some.injEq, Prod.mk.injEq]
      exact ⟨by omega, trivial⟩
    · have e1 : ¬ (n % 128 + 128 < 128) := by omega
      have e2 : ¬ (n / 128 % 128 + 128 = 0) := by omega
      have e3 : ¬ (n / 128 % 128 + 128 < 128) := by omega
      have e4 : ¬ (n / 16384 = 0) := by omega
      have e5 : n / 16384 < 4 := by omega
      simp only [if_neg h1, if_neg h2, List.cons_append, List.nil_append]
      simp only [readCompactU16, e1, e2, e3, e4, e5, if_false, if_true]
      simp only [ite_false, ite_true, Option.some.injEq, Prod.mk.injEq]
      exact ⟨by omega, trivial⟩

/-- Reading back exactly the bytes that were written. -/
theorem readN_append (l r : List Nat) : readN l.length (l ++ r) = some (l, r) := by
  simp [readN]

/-- Reading back a 32-byte key. -/
theorem readPubkey_append (key : Pubkey) (r : List Nat) (h : key.length = 32) :
    readPubkey (key ++ r) = some (key, r) := by
  rw [readPubkey, ← h]
  exact readN_append key r

/-- Reading back a written byte sequence byte by byte. -/
theorem readList_readByte (bytes r : List Nat) :
    readList readByte bytes.length (bytes ++ r) = some (bytes, r) := by
  induction bytes generalizing r with
  | nil => simp [readList]
  | cons b bs ih => simp [readList, readByte, ih]

/-- Reading back a written key list. -/
theorem readList_readPubkey (keys : List Pubkey) (r : List Nat)
    (h : ∀ k ∈ keys, k.length = 32) :
    readList readPubkey keys.length (keys.flatten ++ r) = some (keys, r) := by
  induction keys generalizing r with
  | nil => simp [readList]
  | cons k ks ih =>
    simp only [List.flatten_cons, List.length_cons, List.append_assoc]
    unfold readList
    rw [readPubkey_append k _ (h k (by simp)), Option.some_bind,
        ih _ (fun k2 hk2 => h k2 (by simp [hk2])), Option.map_some']

/-- Reading back a written compiled instruction. -/
theorem readCI_append (ci : CompiledInstruction) (r : List Nat)
    (ha : ci.accounts.length < 65536) (hd : ci.data.length < 65536) :
    readCompiledInstruction (serCompiledInstruction ci ++ r) = some (ci, r) := by
  unfold serCompiledInstruction readCompiledInstruction
  simp only [List.cons_append, List.append_assoc]
  rw [readByte, Option.some_bind,
      readCompactU16_encode _ ha _, Option.some_bind,
      readList_readByte _ _, Option.some_bind,
      readCompactU16_encode _ hd _, Option.some_bind,
      readList_readByte _ _, Option.map_some']

/-- Reading back a written list of compiled instructions. -/
theorem readList_readCI (cis : List CompiledInstruction) (r : List Nat)
    (h : ∀ ci ∈ cis, validCompiledInstruction ci) :
    readList readCompiledInstruction cis.length
      ((cis.map serCompiledInstruction).flatten ++ r) = some (cis, r) := by
  induction cis generalizing r with
  | nil => simp [readList]
  | cons ci cis2 ih =>
    obtain ⟨_, ha, _, hd, _⟩ := h ci (by simp)
    simp only [List.map_cons, List.flatten_cons, List.length_cons,
      List.append_assoc]
    unfold readList
    rw [readCI_append ci _ ha hd, Option.some_bind,
        ih _ (fun c hc => h c (by simp [hc])), Option.map_some']

/-- Parsing the serialization of a well-formed message recovers the message
and the trailing bytes. -/
theorem parseMessage_serialize (m : Message) (h : validMessage m) (r : List Nat) :
    parseMessage (serializeMessage m ++ r) = some (m, r) := by
  obtain ⟨h1, h2, h3, hkl, hkeys, hbl, hbh, hil, hixs⟩ := h
  unfold serializeMessage parseMessage
  simp only [List.cons_append, List.append_assoc]
  rw [readByte, Option.some_bind, readByte, Option.some_bind,
      readByte, Option.some_bind,
      readCompactU16_encode _ hkl _, Option.some_bind,
      readList_readPubkey _ _ (fun k hk => (hkeys k hk).1), Option.some_bind]
  rw [show (32 : Nat) = m.recentBlockhash.length from hbl.symm,
      readN_append _ _, Option.some_bind,
      readCompactU16_encode _ hil _, Option.some_bind,
      readList_readCI _ _ hixs, Option.map_some']

/-- The standard alphabet digit of every sextet decodes back to the sextet. -/
theorem b64Val_b64Char : ∀ v < 64, b64Val (b64Char v) = some v := by decide

/-- No alphabet digit is the pad character. -/
theorem b64Char_ne_pad : ∀ v < 64, b64Char v ≠ 61 := by decide

/-- Strict base64 decoding inverts encoding on byte lists. -/
theorem b64_roundtrip (l : List Nat) (h : ∀ b ∈ l, b < 256) :
    b64Decode (b64Encode l) = some l := by
  induction l using b64Encode.induct with
  | case1 => rfl
  | case2 a =>
    have ha : a < 256 := h a (by simp)
    show b64Decode [b64Char (a / 4), b64Char (a % 4 * 16), 61, 61] = some [a]
    unfold b64Decode
    rw [b64Val_b64Char (a / 4) (by omega), Option.some_bind,
        b64Val_b64Char (a % 4 * 16) (by omega), Option.some_bind]
    rw [if_pos rfl,
        if_pos (show (61 : Nat) = 61 ∧ ([] : List Nat) = []
            ∧ (a % 4 * 16) % 16 = 0 from ⟨rfl, rfl, by omega⟩)]
    simp only [Option.some.injEq, List.cons.injEq, and_true]
    omega
  | case3 a b =>
    have ha : a < 256 := h a (by simp)
    have hb : b < 256 := h b (by simp)
    show b64Decode [b64Char (a / 4), b64Char (a % 4 * 16 + b / 16),
        b64Char (b % 16 * 4), 61] = some [a, b]
    unfold b64Decode
    rw [b64Val_b64Char (a / 4) (by omega), Option.some_bind,
        b64Val_b64Char (a % 4 * 16 + b / 16) (by omega), Option.some_bind,
        if_neg (b64Char_ne_pad (b % 16 * 4) (by omega)),
        b64Val_b64Char (b % 16 * 4) (by omega), Option.some_bind,
        if_pos (rfl : (61 : Nat) = 61),
        if_pos (show ([] : List Nat) = [] ∧ (b % 16 * 4) % 4 = 0 from
          ⟨rfl, by omega⟩)]
    simp only [Option.some.injEq, List.cons.injEq, and_true]
    omega
  | case4 a b c rest ih =>
    have ha : a < 256 := h a (by simp)
    have hb : b < 256 := h b (by simp)
    have hc : c < 256 := h c (by simp)
    have hrest : ∀ x ∈ rest, x < 256 := fun x hx => h x (by simp [hx])
    show b64Decode (b64Char (a / 4) :: b64Char (a % 4 * 16 + b / 16)
        :: b64Char (b % 16 * 4 + c / 64) :: b64Char (c % 64)
        :: b64Encode rest) = some (a :: b :: c :: rest)
    unfold b64Decode
    rw [b64Val_b64Char (a / 4) (by omega), Option.some_bind,
        b64Val_b64Char (a % 4 * 16 + b / 16) (by omega), Option.some_bind,
        if_neg (b64Char_ne_pad (b % 16 * 4 + c / 64) (by omega)),
        b64Val_b64Char (b % 16 * 4 + c / 64) (by omega), Option.some_bind,
        if_neg (b64Char_ne_pad (c % 64) (by omega)),
        b64Val_b64Char (c % 64) (by omega), Option.some_bind,
        ih hrest, Option.map_some']
    simp only [Option.some.injEq, List.cons.injEq, and_true]
    omega

/-- Every byte of a compact-u16 encoding of a bounded value is a byte. -/
theorem encodeCompactU16_bytes_lt (n : Nat) (h : n < 65536) :
    ∀ b ∈ encodeCompactU16 n, b < 256 := by
  intro b hb
  unfold encodeCompactU16 at hb
  by_cases h1 : n < 128
  · rw [if_pos h1] at hb
    simp at hb
    omega
  · by_cases h2 : n < 16384
    · rw [if_neg h1, if_pos h2] at hb
      rcases List.mem_cons.1 hb with rfl | hb2
      · omega
      · rcases List.mem_cons.1 hb2 with rfl | hb3
        · omega
        · cases hb3
    · rw [if_neg h1, if_neg h2] at hb
      rcases List.mem_cons.1 hb with rfl | hb2
      · omega
      · rcases List.mem_cons.1 hb2 with rfl | hb3
        · omega
        · rcases List.mem_cons.1 hb3 with rfl | hb4
          · omega
          · cases hb4

/-- Every byte of a well-formed compiled instruction's wire form is a byte. -/
theorem serCI_bytes_lt (ci : CompiledInstruction)
    (h : validCompiledInstruction ci) :
    ∀ b ∈ serCompiledInstruction ci, b < 256 := by
  obtain ⟨hp, ha, hav, hd, hdv⟩ := h
  intro b hb
  unfold serCompiledInstruction at hb
  rcases List.mem_cons.1 hb with rfl | hb2
  · exact hp
  · rcases List.mem_append.1 hb2 with hb3 | hbd
    · rcases List.mem_append.1 hb3 with hb4 | hbc
      · rcases List.mem_append.1 hb4 with hbe | hba
        · exact encodeCompactU16_bytes_lt _ ha b hbe
        · exact hav b hba
      · exact encodeCompactU16_bytes_lt _ hd b hbc
    · exact hdv b hbd

/-- Every byte of the serialization of a well-formed message is a byte. -/
theorem serializeMessage_bytes_lt (m : Message) (h : validMessage m) :
    ∀ b ∈ serializeMessage m, b < 256 := by
  obtain ⟨h1, h2, h3, hkl, hkeys, _hbl, hbh, hil, hixs⟩ := h
  intro b hb
  unfold serializeMessage at hb
  rcases List.mem_cons.1 hb with rfl | hb2
  · exact h1
  · rcases List.mem_cons.1 hb2 with rfl | hb3
    · exact h2
    · rcases List.mem_cons.1 hb3 with rfl | hb4
      · exact h3
      · rcases List.mem_append.1 hb4 with hb5 | hbj
        · rcases List.mem_append.1 hb5 with hb6 | hbe2
          · rcases List.mem_append.1 hb6 with hb7 | hbbh
            · rcases List.mem_append.1 hb7 with hbe1 | hbfl
              · exact encodeCompactU16_bytes_lt _ hkl b hbe1
              · rcases List.mem_flatten.1 hbfl with ⟨key, hkm, hbk⟩
                exact (hkeys key hkm).2 b hbk
            · exact hbh b hbbh
          · exact encodeCompactU16_bytes_lt _ hil b hbe2
        · rcases List.mem_flatten.1 hbj with ⟨bl, hblm, hbb⟩
          rcases List.mem_map.1 hblm with ⟨ci, hcim, rfl⟩
          exact serCI_bytes_lt ci (hixs ci hcim) b hbb

/-- Transport round trip for every well-formed message: base64 then bincode
decoding of the encoded serialization gives the message back. -/
theorem decode_encode_valid (m : Message) (h : validMessage m) :
    decodeTransport (encodeTransport m) = some m := by
  unfold encodeTransport decodeTransport
  rw [b64_roundtrip _ (serializeMessage_bytes_lt m h), Option.some_bind]
  unfold deserializeMessage
  have hp := parseMessage_serialize m h []
  rw [List.append_nil] at hp
  rw [hp, Option.map_some']

/-- C4: for every payer, nonce value, nonce account and instruction list whose
built message is structurally valid (wire counts within bounds and all bytes
bytes), decoding the transport string printed for the built message yields a
message structurally equal to it. -/
theorem decode_encode_buildTx (payer : Pubkey) (nonce : List Nat)
    (nonceAccount : Pubkey) (ixs : List Instruction)
    (h : validMessage (buildTx payer nonce nonceAccount ixs)) :
    decodeTransport (encodeTransport (buildTx payer nonce nonceAccount ixs))
      = some (buildTx payer nonce nonceAccount ixs) :=
  decode_encode_valid _ h

/-- C4 witness: a concrete build (payer pk 1, zero nonce, nonce account pk 2,
no further instructions) is well formed and round-trips through the transport
encoding. -/
theorem decode_encode_buildTx_witness :
    validMessage (buildTx (pk 1) (List.replicate 32 0) (pk 2) [])
    ∧ decodeTransport
        (encodeTransport (buildTx (pk 1) (List.replicate 32 0) (pk 2) []))
      = some (buildTx (pk 1) (List.replicate 32 0) (pk 2) []) :=
  ⟨by decide, decode_encode_buildTx (pk 1) (List.replicate 32 0) (pk 2) []
    (by decide)⟩

end Serum
